import Mathlib

/-!
Verification of the snarkOS peer-to-peer connection layer specification,
together with the `Deploy` CLI command and the checksum-gated parameter
loader.

The connection engine and router implementations are exercised only through
their integration tests in this repository, so the connection-lifecycle
state machine below is modelled from the specification text (sections 3-5
of the design document): per-node raw-state sets (`Connecting`,
`Connected`), a logical peer table, an optional gating handshake protocol,
and strictly local disconnects.
-/

namespace SnarkOS

/-- Modelled from the spec: the per-node state kept by the Connection
Engine (raw `connecting` and `connected` address sets) and the Router
(logical `peers` table, handshake configuration flag, and the set of
addresses whose gating handshake exchange has completed successfully).
The implementation of the engine and router is not part of this
repository snapshot; only its tests are. -/
structure NodeState where
  connecting : Finset Nat
  connected : Finset Nat
  peers : Finset Nat
  hsEnabled : Bool
  handshakeDone : Finset Nat
  deriving DecidableEq

/-- Modelled from the spec: a fresh node with empty connection and peer
tables and a configuration-time handshake flag. -/
def initNode (hs : Bool) : NodeState :=
  { connecting := ∅, connected := ∅, peers := ∅, hsEnabled := hs, handshakeDone := ∅ }

/-- Modelled from the spec: a two-node world, node `a` (the initiator in
the observed scenarios) and node `b`, each listening on its own address. -/
structure World where
  a : NodeState
  b : NodeState
  addrA : Nat
  addrB : Nat
  deriving DecidableEq

/-- Modelled from the spec: the initial two-node world with the given
handshake configuration flags and listening addresses. -/
def initWorld (hsA hsB : Bool) (aA aB : Nat) : World :=
  { a := initNode hsA, b := initNode hsB, addrA := aA, addrB := aB }

/-- Modelled from the spec: lifecycle events of the single connection
between the two nodes.  `connectInit` is node a calling `connect`,
`establish` is the socket opening (outbound completion at a, inbound
accept at b), `hsSucceed` is the bounded handshake exchange completing on
the wire, `hsFail` is a handshake timeout or negotiation failure detected
at one side, and `disc` is a local `disconnect` call at one side. -/
inductive Event
  | connectInit
  | establish
  | hsSucceed
  | hsFail (atA : Bool)
  | disc (atA : Bool)
  deriving DecidableEq

/-- Modelled from the spec: handshake-failure teardown at one node — the
Connection is removed from the raw-state sets and no Peer entry remains. -/
def tearDown (n : NodeState) (addr : Nat) : NodeState :=
  { n with connecting := n.connecting.erase addr,
           connected := n.connected.erase addr,
           peers := n.peers.erase addr }

/-- Modelled from the spec: a local `disconnect(addr)` — the address is
removed from all raw-state sets and the local Peer entry (with its
attached handshake result) is dropped, unconditionally and without
notifying the remote endpoint. -/
def discLocal (n : NodeState) (addr : Nat) : NodeState :=
  { n with connecting := n.connecting.erase addr,
           connected := n.connected.erase addr,
           peers := n.peers.erase addr,
           handshakeDone := n.handshakeDone.erase addr }

/-- Modelled from the spec: the effect of one lifecycle event on the
world.  `connect` is idempotent while the attempt is `Connecting` or
`Connected`; on establishment each side promotes the address to a peer
immediately iff its own gating handshake is disabled; the handshake
exchange completes jointly for both sides and promotes on both; a
handshake failure tears the local Connection down; `disc` is strictly
local to the calling side. -/
def exec (w : World) (e : Event) : World :=
  match e with
  | Event.connectInit =>
      if w.addrB ∈ w.a.connecting ∨ w.addrB ∈ w.a.connected then w
      else { w with a := { w.a with connecting := insert w.addrB w.a.connecting } }
  | Event.establish =>
      if w.addrB ∈ w.a.connecting then
        { w with
          a := { w.a with
                 connecting := w.a.connecting.erase w.addrB,
                 connected := insert w.addrB w.a.connected,
                 peers := if w.a.hsEnabled then w.a.peers else insert w.addrB w.a.peers },
          b := { w.b with
                 connected := insert w.addrA w.b.connected,
                 peers := if w.b.hsEnabled then w.b.peers else insert w.addrA w.b.peers } }
      else w
  | Event.hsSucceed =>
      if w.a.hsEnabled = true ∧ w.b.hsEnabled = true ∧ w.addrB ∈ w.a.connected ∧
         w.addrA ∈ w.b.connected ∧ w.addrB ∉ w.a.handshakeDone ∧ w.addrA ∉ w.b.handshakeDone then
        { w with
          a := { w.a with handshakeDone := insert w.addrB w.a.handshakeDone,
                          peers := insert w.addrB w.a.peers },
          b := { w.b with handshakeDone := insert w.addrA w.b.handshakeDone,
                          peers := insert w.addrA w.b.peers } }
      else w
  | Event.hsFail true =>
      if w.a.hsEnabled = true ∧ w.addrB ∈ w.a.connected ∧ w.addrB ∉ w.a.handshakeDone then
        { w with a := tearDown w.a w.addrB }
      else w
  | Event.hsFail false =>
      if w.b.hsEnabled = true ∧ w.addrA ∈ w.b.connected ∧ w.addrA ∉ w.b.handshakeDone then
        { w with b := tearDown w.b w.addrA }
      else w
  | Event.disc true => { w with a := discLocal w.a w.addrB }
  | Event.disc false => { w with b := discLocal w.b w.addrA }

/-- Modelled from the spec: a trace of lifecycle events applied in order. -/
def run (w : World) (evs : List Event) : World :=
  evs.foldl exec w

/-- `num_connected` — O(1) count of the raw `Connected` set. -/
def num_connected (n : NodeState) : Nat := n.connected.card

/-- `num_connecting` — O(1) count of the raw `Connecting` set. -/
def num_connecting (n : NodeState) : Nat := n.connecting.card

/-- `number_of_connected_peers` — count of Peer entries in logical state
`Connected`. -/
def number_of_connected_peers (n : NodeState) : Nat := n.peers.card

theorem run_nil (w : World) : run w [] = w := rfl

theorem run_cons (w : World) (e : Event) (evs : List Event) :
    run w (e :: evs) = run (exec w e) evs := rfl

theorem exec_addrA (w : World) (e : Event) : (exec w e).addrA = w.addrA := by
  cases e with
  | connectInit => simp only [exec]; split <;> rfl
  | establish => simp only [exec]; split <;> rfl
  | hsSucceed => simp only [exec]; split <;> rfl
  | hsFail atA => cases atA <;> (simp only [exec]; split <;> rfl)
  | disc atA => cases atA <;> rfl

theorem exec_addrB (w : World) (e : Event) : (exec w e).addrB = w.addrB := by
  cases e with
  | connectInit => simp only [exec]; split <;> rfl
  | establish => simp only [exec]; split <;> rfl
  | hsSucceed => simp only [exec]; split <;> rfl
  | hsFail atA => cases atA <;> (simp only [exec]; split <;> rfl)
  | disc atA => cases atA <;> rfl

theorem exec_hsA (w : World) (e : Event) : (exec w e).a.hsEnabled = w.a.hsEnabled := by
  cases e with
  | connectInit => simp only [exec]; split <;> rfl
  | establish => simp only [exec]; split <;> rfl
  | hsSucceed => simp only [exec]; split <;> rfl
  | hsFail atA => cases atA <;> (simp only [exec, tearDown]; split <;> rfl)
  | disc atA => cases atA <;> rfl

theorem exec_hsB (w : World) (e : Event) : (exec w e).b.hsEnabled = w.b.hsEnabled := by
  cases e with
  | connectInit => simp only [exec]; split <;> rfl
  | establish => simp only [exec]; split <;> rfl
  | hsSucceed => simp only [exec]; split <;> rfl
  | hsFail atA => cases atA <;> (simp only [exec, tearDown]; split <;> rfl)
  | disc atA => cases atA <;> rfl

theorem run_addrB (w : World) (evs : List Event) : (run w evs).addrB = w.addrB := by
  induction evs generalizing w with
  | nil => rfl
  | cons e evs ih => rw [run_cons, ih, exec_addrB]

theorem run_addrA (w : World) (evs : List Event) : (run w evs).addrA = w.addrA := by
  induction evs generalizing w with
  | nil => rfl
  | cons e evs ih => rw [run_cons, ih, exec_addrA]

theorem run_hsA (w : World) (evs : List Event) : (run w evs).a.hsEnabled = w.a.hsEnabled := by
  induction evs generalizing w with
  | nil => rfl
  | cons e evs ih => rw [run_cons, ih, exec_hsA]

theorem run_hsB (w : World) (evs : List Event) : (run w evs).b.hsEnabled = w.b.hsEnabled := by
  induction evs generalizing w with
  | nil => rfl
  | cons e evs ih => rw [run_cons, ih, exec_hsB]

/-- Per-node structural invariant from the spec: the raw state is a
disjoint partition (`Connecting` and `Connected` never overlap), a
completed handshake result only exists for a live raw connection, and a
Peer entry in logical state `Connected` exists iff the raw connection is
`Connected` and the gating handshake (when enabled) has completed. -/
def NodeInv (n : NodeState) : Prop :=
  (∀ x, x ∈ n.connecting → x ∉ n.connected) ∧
  (∀ x, x ∈ n.handshakeDone → x ∈ n.connected) ∧
  (∀ x, x ∈ n.peers ↔ x ∈ n.connected ∧ (n.hsEnabled = true → x ∈ n.handshakeDone))

/-- World invariant: both node invariants, and node b never initiates, so
its `Connecting` set stays empty. -/
def Inv (w : World) : Prop :=
  NodeInv w.a ∧ NodeInv w.b ∧ w.b.connecting = ∅

theorem inv_initWorld (hsA hsB : Bool) (aA aB : Nat) : Inv (initWorld hsA hsB aA aB) := by
  refine ⟨⟨?_, ?_, ?_⟩, ⟨?_, ?_, ?_⟩, rfl⟩ <;> intro x <;> simp [initWorld, initNode]

theorem inv_exec (w : World) (e : Event) (h : Inv w) : Inv (exec w e) := by
  obtain ⟨⟨ha1, ha2, ha3⟩, ⟨hb1, hb2, hb3⟩, hbc⟩ := h
  cases e with
  | connectInit =>
      simp only [exec]
      split
      · exact ⟨⟨ha1, ha2, ha3⟩, ⟨hb1, hb2, hb3⟩, hbc⟩
      · next hguard =>
        push_neg at hguard
        refine ⟨⟨?_, ha2, ha3⟩, ⟨hb1, hb2, hb3⟩, hbc⟩
        intro x hx
        rcases Finset.mem_insert.mp hx with rfl | hx
        · exact hguard.2
        · exact ha1 x hx
  | establish =>
      simp only [exec]
      split
      · next hguard =>
        have hg1 : w.addrB ∉ w.a.connected := ha1 w.addrB hguard
        have hg2 : w.addrB ∉ w.a.handshakeDone := fun hc => hg1 (ha2 w.addrB hc)
        refine ⟨⟨?_, ?_, ?_⟩, ⟨?_, ?_, ?_⟩, hbc⟩ <;> intro x
        · intro hx
          rcases Finset.mem_erase.mp hx with ⟨hne, hc⟩
          simp only [Finset.mem_insert, not_or]
          exact ⟨hne, ha1 x hc⟩
        · intro hx
          exact Finset.mem_insert_of_mem (ha2 x hx)
        · have h2 := ha2 x
          have h3 := ha3 x
          rcases eq_or_ne x w.addrB with rfl | hne
          · cases hhsa : w.a.hsEnabled <;> (simp [hhsa] at h3 ⊢; try tauto)
          · cases hhsa : w.a.hsEnabled <;> (simp [hhsa, hne] at h3 ⊢; tauto)
        · intro hx
          rw [hbc] at hx
          exact absurd hx (Finset.not_mem_empty x)
        · intro hx
          exact Finset.mem_insert_of_mem (hb2 x hx)
        · have h2 := hb2 x
          have h3 := hb3 x
          rcases eq_or_ne x w.addrA with rfl | hne
          · cases hhsb : w.b.hsEnabled <;> (simp [hhsb] at h3 ⊢; try tauto)
          · cases hhsb : w.b.hsEnabled <;> (simp [hhsb, hne] at h3 ⊢; tauto)
      · exact ⟨⟨ha1, ha2, ha3⟩, ⟨hb1, hb2, hb3⟩, hbc⟩
  | hsSucceed =>
      simp only [exec]
      split
      · next hguard =>
        obtain ⟨hea, heb, hca, hcb, hda, hdb⟩ := hguard
        refine ⟨⟨?_, ?_, ?_⟩, ⟨?_, ?_, ?_⟩, hbc⟩ <;> intro x
        · exact fun hx => ha1 x hx
        · intro hx
          rcases Finset.mem_insert.mp hx with rfl | hx
          · exact hca
          · exact ha2 x hx
        · have h3 := ha3 x
          rcases eq_or_ne x w.addrB with rfl | hne
          · simp [hea, hca] at h3 ⊢
          · simp [hea, hne] at h3 ⊢
            tauto
        · exact fun hx => hb1 x hx
        · intro hx
          rcases Finset.mem_insert.mp hx with rfl | hx
          · exact hcb
          · exact hb2 x hx
        · have h3 := hb3 x
          rcases eq_or_ne x w.addrA with rfl | hne
          · simp [heb, hcb] at h3 ⊢
          · simp [heb, hne] at h3 ⊢
            tauto
      · exact ⟨⟨ha1, ha2, ha3⟩, ⟨hb1, hb2, hb3⟩, hbc⟩
  | hsFail atA =>
      cases atA
      · simp only [exec]
        split
        · next hguard =>
          obtain ⟨heb, hcb, hdb⟩ := hguard
          refine ⟨⟨ha1, ha2, ha3⟩, ⟨?_, ?_, ?_⟩, ?_⟩
          · intro x hx
            have h1 := hb1 x
            rcases Finset.mem_erase.mp hx with ⟨hne, hc⟩
            simp [tearDown, Finset.mem_erase]
            tauto
          · intro x hx
            have hxc := hb2 x hx
            have hne : x ≠ w.addrA := fun hcon => hdb (hcon ▸ hx)
            exact Finset.mem_erase.mpr ⟨hne, hxc⟩
          · intro x
            have h3 := hb3 x
            rcases eq_or_ne x w.addrA with rfl | hne
            · simp [tearDown, heb, hdb] at h3 ⊢
            · simp [tearDown, Finset.mem_erase, hne, heb] at h3 ⊢
              tauto
          · simp [tearDown, hbc]
        · exact ⟨⟨ha1, ha2, ha3⟩, ⟨hb1, hb2, hb3⟩, hbc⟩
      · simp only [exec]
        split
        · next hguard =>
          obtain ⟨hea, hca, hda⟩ := hguard
          refine ⟨⟨?_, ?_, ?_⟩, ⟨hb1, hb2, hb3⟩, hbc⟩
          · intro x hx
            have h1 := ha1 x
            rcases Finset.mem_erase.mp hx with ⟨hne, hc⟩
            simp [tearDown, Finset.mem_erase]
            tauto
          · intro x hx
            have hxc := ha2 x hx
            have hne : x ≠ w.addrB := fun hcon => hda (hcon ▸ hx)
            exact Finset.mem_erase.mpr ⟨hne, hxc⟩
          · intro x
            have h3 := ha3 x
            rcases eq_or_ne x w.addrB with rfl | hne
            · simp [tearDown, hea, hda] at h3 ⊢
            · simp [tearDown, Finset.mem_erase, hne, hea] at h3 ⊢
              tauto
        · exact ⟨⟨ha1, ha2, ha3⟩, ⟨hb1, hb2, hb3⟩, hbc⟩
  | disc atA =>
      cases atA
      · refine ⟨⟨ha1, ha2, ha3⟩, ⟨?_, ?_, ?_⟩, ?_⟩
        · intro x hx
          have h1 := hb1 x
          have hx' : x ≠ w.addrA ∧ x ∈ w.b.connecting := Finset.mem_erase.mp hx
          simp [exec, discLocal, Finset.mem_erase]
          tauto
        · intro x hx
          have h2 := hb2 x
          have hx' : x ≠ w.addrA ∧ x ∈ w.b.handshakeDone := Finset.mem_erase.mp hx
          simp [exec, discLocal, Finset.mem_erase]
          tauto
        · intro x
          have h3 := hb3 x
          simp [exec, discLocal, Finset.mem_erase]
          tauto
        · simp [exec, discLocal, hbc]
      · refine ⟨⟨?_, ?_, ?_⟩, ⟨hb1, hb2, hb3⟩, hbc⟩
        · intro x hx
          have h1 := ha1 x
          have hx' : x ≠ w.addrB ∧ x ∈ w.a.connecting := Finset.mem_erase.mp hx
          simp [exec, discLocal, Finset.mem_erase]
          tauto
        · intro x hx
          have h2 := ha2 x
          have hx' : x ≠ w.addrB ∧ x ∈ w.a.handshakeDone := Finset.mem_erase.mp hx
          simp [exec, discLocal, Finset.mem_erase]
          tauto
        · intro x
          have h3 := ha3 x
          simp [exec, discLocal, Finset.mem_erase]
          tauto


theorem inv_run (w : World) (evs : List Event) (h : Inv w) : Inv (run w evs) := by
  induction evs generalizing w with
  | nil => exact h
  | cons e evs ih => exact run_cons w e evs ▸ ih (exec w e) (inv_exec w e h)

theorem exec_peers_empty (w : World) (e : Event) (hA : w.a.hsEnabled = true)
    (hB : w.b.hsEnabled = true) (hpa : w.a.peers = ∅) (hpb : w.b.peers = ∅)
    (hne : e ≠ Event.hsSucceed) :
    (exec w e).a.peers = ∅ ∧ (exec w e).b.peers = ∅ := by
  cases e with
  | connectInit => simp only [exec]; split <;> exact ⟨hpa, hpb⟩
  | establish =>
      simp only [exec]
      split
      · simp [hA, hB, hpa, hpb]
      · exact ⟨hpa, hpb⟩
  | hsSucceed => exact absurd rfl hne
  | hsFail atA =>
      cases atA <;> (simp only [exec]; split <;> simp [tearDown, hpa, hpb])
  | disc atA => cases atA <;> simp [exec, discLocal, hpa, hpb]

theorem peers_empty_of_no_succeed (evs : List Event) (w : World)
    (hA : w.a.hsEnabled = true) (hB : w.b.hsEnabled = true)
    (hpa : w.a.peers = ∅) (hpb : w.b.peers = ∅)
    (hmem : Event.hsSucceed ∉ evs) :
    (run w evs).a.peers = ∅ ∧ (run w evs).b.peers = ∅ := by
  induction evs generalizing w with
  | nil => exact ⟨hpa, hpb⟩
  | cons e evs ih =>
      have hne : e ≠ Event.hsSucceed := fun hcon => hmem (hcon ▸ List.mem_cons_self e evs)
      have hmem' : Event.hsSucceed ∉ evs := fun hcon => hmem (List.mem_cons_of_mem e hcon)
      have hstep := exec_peers_empty w e hA hB hpa hpb hne
      rw [run_cons]
      exact ih (exec w e) ((exec_hsA w e).trans hA) ((exec_hsB w e).trans hB)
        hstep.1 hstep.2 hmem'

/-- The trace observed in the tests: node a calls `connect` and the
connection settles (socket establishment completes on both sides). -/
def connScenario (hsA hsB : Bool) (aA aB : Nat) : World :=
  run (initWorld hsA hsB aA aB) [Event.connectInit, Event.establish]

/-- Claim C3: with no protocols enabled, after node a connects to node b
and the connection settles, `a.num_connected() == 1`,
`a.num_connecting() == 0`, `b.num_connected() == 1`,
`b.num_connecting() == 0`, and both sides report exactly one connected
peer. -/
theorem symmetry_no_protocols (aA aB : Nat) :
    num_connected (connScenario false false aA aB).a = 1 ∧
    num_connecting (connScenario false false aA aB).a = 0 ∧
    num_connected (connScenario false false aA aB).b = 1 ∧
    num_connecting (connScenario false false aA aB).b = 0 ∧
    number_of_connected_peers (connScenario false false aA aB).a = 1 ∧
    number_of_connected_peers (connScenario false false aA aB).b = 1 := by
  simp [connScenario, run, exec, initWorld, initNode, num_connected, num_connecting,
        number_of_connected_peers, Finset.erase_singleton]

/-- Claim C1: after the settled no-protocol connection, node a's
`disconnect` drops its own raw counts to zero while node b still reports
one raw connection and no connecting entries; moreover a local disconnect
at node a never changes node b's state at all. -/
theorem asymmetric_disconnect (aA aB : Nat) :
    num_connected (exec (connScenario false false aA aB) (Event.disc true)).a = 0 ∧
    num_connecting (exec (connScenario false false aA aB) (Event.disc true)).a = 0 ∧
    num_connected (exec (connScenario false false aA aB) (Event.disc true)).b = 1 ∧
    num_connecting (exec (connScenario false false aA aB) (Event.disc true)).b = 0 ∧
    ∀ v : World, (exec v (Event.disc true)).b = v.b := by
  refine ⟨?_, ?_, ?_, ?_, fun v => rfl⟩ <;>
    simp [connScenario, run, exec, initWorld, initNode, discLocal, num_connected,
          num_connecting, Finset.erase_singleton]

/-- Claim C5: a `connect(B)` issued while B is already in the
`Connecting` or `Connected` set is a no-op: the state is unchanged, so no
second Connection is created and neither count increases. -/
theorem idempotent_connect (w : World)
    (h : w.addrB ∈ w.a.connecting ∨ w.addrB ∈ w.a.connected) :
    exec w Event.connectInit = w ∧
    num_connecting (exec w Event.connectInit).a = num_connecting w.a ∧
    num_connected (exec w Event.connectInit).a = num_connected w.a := by
  have heq : exec w Event.connectInit = w := by
    simp only [exec, if_pos h]
  exact ⟨heq, by rw [heq], by rw [heq]⟩

theorem idempotent_connect_witness :
    exec (run (initWorld false false 0 1) [Event.connectInit]) Event.connectInit
      = run (initWorld false false 0 1) [Event.connectInit] :=
  (idempotent_connect (run (initWorld false false 0 1) [Event.connectInit])
    (by decide)).1

/-- Claim C4: at every reachable state, a Peer entry in logical state
`Connected` exists for an address iff the raw connection to that address
is `Connected` and the gating handshake (when enabled) has completed
successfully for it — on both nodes. -/
theorem peer_promotion_invariant (hsA hsB : Bool) (aA aB : Nat) (evs : List Event)
    (x : Nat) :
    (x ∈ (run (initWorld hsA hsB aA aB) evs).a.peers ↔
      x ∈ (run (initWorld hsA hsB aA aB) evs).a.connected ∧
      ((run (initWorld hsA hsB aA aB) evs).a.hsEnabled = true →
        x ∈ (run (initWorld hsA hsB aA aB) evs).a.handshakeDone)) ∧
    (x ∈ (run (initWorld hsA hsB aA aB) evs).b.peers ↔
      x ∈ (run (initWorld hsA hsB aA aB) evs).b.connected ∧
      ((run (initWorld hsA hsB aA aB) evs).b.hsEnabled = true →
        x ∈ (run (initWorld hsA hsB aA aB) evs).b.handshakeDone)) := by
  have h := inv_run (initWorld hsA hsB aA aB) evs (inv_initWorld hsA hsB aA aB)
  exact ⟨h.1.2.2 x, h.2.1.2.2 x⟩

theorem peer_promotion_invariant_witness :
    (1 : Nat) ∈
      (run (initWorld true true 0 1)
        [Event.connectInit, Event.establish, Event.hsSucceed]).a.connected ∧
    ((run (initWorld true true 0 1)
        [Event.connectInit, Event.establish, Event.hsSucceed]).a.hsEnabled = true →
      (1 : Nat) ∈
        (run (initWorld true true 0 1)
          [Event.connectInit, Event.establish, Event.hsSucceed]).a.handshakeDone) :=
  (peer_promotion_invariant true true 0 1
    [Event.connectInit, Event.establish, Event.hsSucceed] 1).1.mp (by decide)

/-- Claim C2: with handshake enabled on both sides,
`number_of_connected_peers` can be positive on either side only after the
joint handshake exchange has completed (the `hsSucceed` event occurred in
the trace), and an address whose raw connection is live but whose
handshake has not completed (pending or failed) never counts as a
connected peer on either side. -/
theorem handshake_gating (aA aB : Nat) (evs : List Event) :
    (0 < number_of_connected_peers (run (initWorld true true aA aB) evs).a ∨
     0 < number_of_connected_peers (run (initWorld true true aA aB) evs).b →
      Event.hsSucceed ∈ evs) ∧
    (∀ x, x ∈ (run (initWorld true true aA aB) evs).a.connected →
      x ∉ (run (initWorld true true aA aB) evs).a.handshakeDone →
      x ∉ (run (initWorld true true aA aB) evs).a.peers) ∧
    (∀ x, x ∈ (run (initWorld true true aA aB) evs).b.connected →
      x ∉ (run (initWorld true true aA aB) evs).b.handshakeDone →
      x ∉ (run (initWorld true true aA aB) evs).b.peers) := by
  refine ⟨?_, ?_, ?_⟩
  · intro hpos
    by_contra hmem
    have hemp := peers_empty_of_no_succeed evs (initWorld true true aA aB)
      rfl rfl rfl rfl hmem
    rcases hpos with hp | hp
    · rw [number_of_connected_peers, hemp.1] at hp
      exact absurd hp (by simp)
    · rw [number_of_connected_peers, hemp.2] at hp
      exact absurd hp (by simp)
  · intro x _ hd hp
    have h := inv_run (initWorld true true aA aB) evs (inv_initWorld true true 0 1)
    have hmem := (h.1.2.2 x).mp hp
    exact hd (hmem.2 ((run_hsA (initWorld true true aA aB) evs).trans rfl))
  · intro x _ hd hp
    have h := inv_run (initWorld true true aA aB) evs (inv_initWorld true true 0 1)
    have hmem := (h.2.1.2.2 x).mp hp
    exact hd (hmem.2 ((run_hsB (initWorld true true aA aB) evs).trans rfl))

theorem handshake_gating_witness :
    Event.hsSucceed ∈ [Event.connectInit, Event.establish, Event.hsSucceed] ∧
    (1 : Nat) ∉ (run (initWorld true true 0 1) [Event.connectInit, Event.establish]).a.peers :=
  ⟨(handshake_gating 0 1 [Event.connectInit, Event.establish, Event.hsSucceed]).1
      (Or.inl (by decide)),
   (handshake_gating 0 1 [Event.connectInit, Event.establish]).2.1 1
      (by decide) (by decide)⟩

/-- Claim C6: in any reachable state of a node with the handshake enabled,
if the raw connection is live but the handshake never completed, the
pending attempt has no Peer entry, and the timeout-driven teardown
removes the Connection from every raw-state set, still creates no Peer
entry, and leaves `number_of_connected_peers` unchanged (the caller sees
no error, only a count that did not increase). -/
theorem handshake_timeout (hsB : Bool) (aA aB : Nat) (evs : List Event)
    (hc : (run (initWorld true hsB aA aB) evs).addrB ∈
            (run (initWorld true hsB aA aB) evs).a.connected)
    (hd : (run (initWorld true hsB aA aB) evs).addrB ∉
            (run (initWorld true hsB aA aB) evs).a.handshakeDone) :
    (run (initWorld true hsB aA aB) evs).addrB ∉
      (run (initWorld true hsB aA aB) evs).a.peers ∧
    (run (initWorld true hsB aA aB) evs).addrB ∉
      (exec (run (initWorld true hsB aA aB) evs) (Event.hsFail true)).a.connected ∧
    (run (initWorld true hsB aA aB) evs).addrB ∉
      (exec (run (initWorld true hsB aA aB) evs) (Event.hsFail true)).a.connecting ∧
    (run (initWorld true hsB aA aB) evs).addrB ∉
      (exec (run (initWorld true hsB aA aB) evs) (Event.hsFail true)).a.peers ∧
    number_of_connected_peers
      (exec (run (initWorld true hsB aA aB) evs) (Event.hsFail true)).a =
      number_of_connected_peers (run (initWorld true hsB aA aB) evs).a := by
  have hA : (run (initWorld true hsB aA aB) evs).a.hsEnabled = true :=
    (run_hsA (initWorld true hsB aA aB) evs).trans rfl
  have hinv := inv_run (initWorld true hsB aA aB) evs (inv_initWorld true hsB aA aB)
  have hnp : (run (initWorld true hsB aA aB) evs).addrB ∉
      (run (initWorld true hsB aA aB) evs).a.peers := by
    intro hp
    exact hd (((hinv.1.2.2 _).mp hp).2 hA)
  have hstep : exec (run (initWorld true hsB aA aB) evs) (Event.hsFail true) =
      { run (initWorld true hsB aA aB) evs with
        a := tearDown (run (initWorld true hsB aA aB) evs).a
               (run (initWorld true hsB aA aB) evs).addrB } := by
    simp only [exec, if_pos (And.intro hA (And.intro hc hd))]
  rw [hstep]
  refine ⟨hnp, ?_, ?_, ?_, ?_⟩
  · exact Finset.not_mem_erase _ _
  · exact Finset.not_mem_erase _ _
  · exact Finset.not_mem_erase _ _
  · simp only [tearDown, number_of_connected_peers]
    rw [Finset.erase_eq_of_not_mem hnp]

theorem handshake_timeout_witness :
    (run (initWorld true true 0 1) [Event.connectInit, Event.establish]).addrB ∉
      (exec (run (initWorld true true 0 1) [Event.connectInit, Event.establish])
        (Event.hsFail true)).a.connected :=
  (handshake_timeout true 0 1 [Event.connectInit, Event.establish]
    (by decide) (by decide)).2.1

/-- Claim C7: local state transitions are immediately visible to local
queries issued on the state a call returns: after `disconnect(B)` returns
at node a, B is absent from the connected, connecting and peer tables
that the queries read; after `connect(B)` returns, B is present in the
connecting or connected set. -/
theorem immediate_local_visibility (w : World) :
    (w.addrB ∉ (exec w (Event.disc true)).a.connected ∧
     w.addrB ∉ (exec w (Event.disc true)).a.connecting ∧
     w.addrB ∉ (exec w (Event.disc true)).a.peers) ∧
    (w.addrB ∈ (exec w Event.connectInit).a.connecting ∨
     w.addrB ∈ (exec w Event.connectInit).a.connected) := by
  constructor
  · refine ⟨?_, ?_, ?_⟩ <;> simp [exec, discLocal]
  · simp only [exec]
    split
    · next hg => exact hg
    · exact Or.inl (Finset.mem_insert_self _ _)

/-!
Embedding of `Deploy::parse` from `src/cli/src/commands/developer/deploy.rs`.
The u64 machine integers are embedded as `Nat` values bounded by
`U64_MAX`, and the external collaborators (private-key parsing, package
loading, deployment generation, the VM, fee execution, transaction
construction and the final broadcast/save/display step) are abstracted as
an environment recording whether each fallible call succeeds; the control
flow, the order of the checks, and the checked fee arithmetic follow the
source. -/

/-- Largest value representable in a Rust `u64`. -/
def U64_MAX : Nat := 2 ^ 64 - 1

/-- Rust `u64::checked_add`: the exact sum when it fits in 64 bits,
`none` on overflow. -/
def checked_add (a b : Nat) : Option Nat :=
  if a + b ≤ U64_MAX then some (a + b) else none

/-- The CLI arguments of the `Deploy` command (`struct Deploy`). -/
structure Deploy where
  program_id : String
  path : Option String
  private_key : String
  query : String
  fee : Nat
  record : String
  broadcast : Option String
  dry_run : Bool
  store : Option String

/-- The distinct failure exits of `Deploy::parse`, one per fallible step
in source order. -/
inductive DeployError
  | noAction
  | badPrivateKey
  | badPackage
  | badDeployment
  | badDeploymentId
  | badVm
  | badCost
  | feeOverflow
  | badRecord
  | badExecuteFee
  | badOwner
  | badTransaction
  | badHandle
  deriving DecidableEq

/-- Environment abstracting the external collaborators called by
`Deploy::parse`: each flag records whether the corresponding fallible call
succeeds, and `cost` is the `minimum_deployment_cost` returned by
`deployment_cost` (`none` when that call fails). -/
structure DeployEnv where
  private_key_ok : Bool
  package_ok : Bool
  deployment_ok : Bool
  deployment_id_ok : Bool
  vm_ok : Bool
  cost : Option Nat
  record_ok : Bool
  execute_fee_ok : Bool
  owner_ok : Bool
  transaction_ok : Bool
  handle_ok : Bool
  handle_out : String

/-- The observable successful outcome of `Deploy::parse`: the fee in
microcredits passed to `execute_fee_raw` and the string returned by
`handle_transaction`. -/
structure DeployOutcome where
  fee_in_microcredits : Nat
  output : String
  deriving DecidableEq

/-- `Deploy::parse`: first the action check (`--broadcast`, `--dry-run`
or `--store` must be given), then the external steps in source order,
with the deployment fee computed by `checked_add` of the minimum
deployment cost and the user priority fee. -/
def Deploy.parse (d : Deploy) (env : DeployEnv) : Except DeployError DeployOutcome :=
  if !d.dry_run && d.broadcast.isNone && d.store.isNone then Except.error DeployError.noAction
  else if !env.private_key_ok then Except.error DeployError.badPrivateKey
  else if !env.package_ok then Except.error DeployError.badPackage
  else if !env.deployment_ok then Except.error DeployError.badDeployment
  else if !env.deployment_id_ok then Except.error DeployError.badDeploymentId
  else if !env.vm_ok then Except.error DeployError.badVm
  else
    match env.cost with
    | none => Except.error DeployError.badCost
    | some minimum_deployment_cost =>
      match checked_add minimum_deployment_cost d.fee with
      | none => Except.error DeployError.feeOverflow
      | some fee_in_microcredits =>
        if !env.record_ok then Except.error DeployError.badRecord
        else if !env.execute_fee_ok then Except.error DeployError.badExecuteFee
        else if !env.owner_ok then Except.error DeployError.badOwner
        else if !env.transaction_ok then Except.error DeployError.badTransaction
        else if !env.handle_ok then Except.error DeployError.badHandle
        else Except.ok { fee_in_microcredits := fee_in_microcredits, output := env.handle_out }

theorem deploy_action_guard (d : Deploy) :
    (!d.dry_run && d.broadcast.isNone && d.store.isNone) = true ↔
      d.dry_run = false ∧ d.broadcast = none ∧ d.store = none := by
  simp [Bool.and_eq_true, Option.isNone_iff_eq_none, and_assoc]

theorem deploy_parse_ne_noAction (d : Deploy) (env : DeployEnv)
    (h : (!d.dry_run && d.broadcast.isNone && d.store.isNone) = false) :
    Deploy.parse d env ≠ Except.error DeployError.noAction := by
  unfold Deploy.parse
  rw [h]
  simp only [Bool.false_eq_true, if_false]
  repeat' split
  all_goals simp

/-- Claim C8: `Deploy::parse` fails with the action-precondition error
exactly when `--dry-run` is off and neither `--broadcast` nor `--store`
is given; in that case no deployment work happens (the result does not
depend on the environment at all), and it proceeds past the check exactly
when at least one action is specified. -/
theorem deploy_action_precondition (d : Deploy) (env : DeployEnv) :
    (Deploy.parse d env = Except.error DeployError.noAction ↔
      d.dry_run = false ∧ d.broadcast = none ∧ d.store = none) ∧
    (d.dry_run = false ∧ d.broadcast = none ∧ d.store = none →
      ∀ env' : DeployEnv, Deploy.parse d env = Deploy.parse d env') ∧
    ((d.dry_run = true ∨ d.broadcast.isSome ∨ d.store.isSome) ↔
      Deploy.parse d env ≠ Except.error DeployError.noAction) := by
  by_cases hg : (!d.dry_run && d.broadcast.isNone && d.store.isNone) = true
  · have hparse : ∀ env' : DeployEnv,
        Deploy.parse d env' = Except.error DeployError.noAction := fun env' => by
      unfold Deploy.parse
      rw [hg]
      simp
    have hcond := (deploy_action_guard d).mp hg
    refine ⟨⟨fun _ => hcond, fun _ => hparse env⟩,
            fun _ env' => (hparse env).trans (hparse env').symm, ?_, ?_⟩
    · intro hact
      exfalso
      rcases hact with h1 | h1 | h1
      · rw [hcond.1] at h1
        exact Bool.false_ne_true h1
      · rw [hcond.2.1] at h1
        simp at h1
      · rw [hcond.2.2] at h1
        simp at h1
    · intro hne
      exact absurd (hparse env) hne
  · have hg' : (!d.dry_run && d.broadcast.isNone && d.store.isNone) = false :=
      Bool.eq_false_iff.mpr hg
    have hne := deploy_parse_ne_noAction d env hg'
    have hcond : ¬(d.dry_run = false ∧ d.broadcast = none ∧ d.store = none) :=
      fun hc => hg ((deploy_action_guard d).mpr hc)
    refine ⟨⟨fun h => absurd h hne, fun hc => absurd hc hcond⟩,
            fun hc => absurd hc hcond, fun _ => hne, fun _ => ?_⟩
    by_contra hno
    push_neg at hno
    refine hcond ⟨?_, ?_, ?_⟩
    · exact Bool.eq_false_iff.mpr hno.1
    · exact Option.not_isSome_iff_eq_none.mp fun hc => hno.2.1 hc
    · exact Option.not_isSome_iff_eq_none.mp fun hc => hno.2.2 hc

theorem deploy_action_precondition_witness :
    Deploy.parse
        { program_id := "hello.aleo", path := none, private_key := "PRIVATE_KEY",
          query := "QUERY", fee := 77, record := "RECORD", broadcast := none,
          dry_run := false, store := none }
        { private_key_ok := true, package_ok := true, deployment_ok := true,
          deployment_id_ok := true, vm_ok := true, cost := some 0, record_ok := true,
          execute_fee_ok := true, owner_ok := true, transaction_ok := true,
          handle_ok := true, handle_out := "tx" }
      = Except.error DeployError.noAction :=
  (deploy_action_precondition _ _).1.mpr ⟨rfl, rfl, rfl⟩

theorem deploy_no_action_to_guard (d : Deploy)
    (hact : d.dry_run = true ∨ d.broadcast.isSome ∨ d.store.isSome) :
    (!d.dry_run && d.broadcast.isNone && d.store.isNone) = false := by
  rcases hact with h1 | h1 | h1
  · simp [h1]
  · obtain ⟨v, hv⟩ := Option.isSome_iff_exists.mp h1
    simp [hv]
  · obtain ⟨v, hv⟩ := Option.isSome_iff_exists.mp h1
    simp [hv]

set_option maxHeartbeats 1600000 in
/-- Claim C9: the fee of a deployment transaction is
`minimum_deployment_cost + priority fee` computed exactly in u64
arithmetic: whenever `Deploy::parse` succeeds the fee it passed to fee
execution is the exact sum, and whenever that sum exceeds `u64::MAX` and
the checked addition is reached, `parse` returns the fee-overflow error
instead of wrapping. -/
theorem deployment_fee_arithmetic (d : Deploy) (env : DeployEnv) (c : Nat)
    (hcost : env.cost = some c) :
    (∀ r, Deploy.parse d env = Except.ok r → r.fee_in_microcredits = c + d.fee) ∧
    (U64_MAX < c + d.fee →
      (d.dry_run = true ∨ d.broadcast.isSome ∨ d.store.isSome) →
      env.private_key_ok = true → env.package_ok = true → env.deployment_ok = true →
      env.deployment_id_ok = true → env.vm_ok = true →
      Deploy.parse d env = Except.error DeployError.feeOverflow) := by
  constructor
  · intro r hr
    simp only [Deploy.parse, checked_add, hcost] at hr
    by_cases hadd : c + d.fee ≤ U64_MAX
    · simp only [if_pos hadd] at hr
      repeat' split at hr
      all_goals try exact Except.noConfusion hr
      injection hr with hr2
      rw [← hr2]
    · simp only [if_neg hadd] at hr
      repeat' split at hr
      all_goals exact Except.noConfusion hr
  · intro hover hact h1 h2 h3 h4 h5
    have hg := deploy_no_action_to_guard d hact
    have hne := Nat.not_le.mpr hover
    simp only [Deploy.parse, checked_add, hg, hcost, h1, h2, h3, h4, h5]
    simp [hne]

theorem deployment_fee_arithmetic_witness :
    DeployOutcome.fee_in_microcredits { fee_in_microcredits := 12, output := "tx" } = 7 + 5 :=
  (deployment_fee_arithmetic
    { program_id := "hello.aleo", path := none, private_key := "PRIVATE_KEY",
      query := "QUERY", fee := 5, record := "RECORD", broadcast := none,
      dry_run := true, store := none }
    { private_key_ok := true, package_ok := true, deployment_ok := true,
      deployment_id_ok := true, vm_ok := true, cost := some 7, record_ok := true,
      execute_fee_ok := true, owner_ok := true, transaction_ok := true,
      handle_ok := true, handle_out := "tx" }
    7 rfl).1 { fee_in_microcredits := 12, output := "tx" } rfl

/-!
Embedding of `OuterSNARKVKParameters::load_bytes` from
`src/parameters/src/outer_snark_vk/outer_snark_vk.rs`.  Bytes are `Nat`
values below 256; the external `sha256` digest function (from
`snarkos_algorithms`, not part of this snapshot) is a parameter;
`hex::encode` is embedded concretely as lowercase hexadecimal. -/

/-- One lowercase hexadecimal digit (0-9 then a-f). -/
def hexDigit (n : Nat) : Char :=
  if n < 10 then Char.ofNat (48 + n) else Char.ofNat (87 + n)

/-- `hex::encode`: two lowercase hexadecimal digits per byte, high nibble
first. -/
def hexEncode (bs : List Nat) : String :=
  String.mk (bs.foldr (fun b acc => hexDigit (b / 16) :: hexDigit (b % 16) :: acc) [])

/-- The `ParametersError` variant produced by checksum-gated loading. -/
inductive ParametersError
  | ChecksumMismatch (expected computed : String)
  deriving DecidableEq

/-- `OuterSNARKVKParameters::load_bytes`, parameterized by the external
`sha256` function and by the compile-time embedded `CHECKSUM` string and
parameter `buffer` (both included from files that are not part of this
snapshot). -/
def load_bytes (sha256 : List Nat → List Nat) (CHECKSUM : String) (buffer : List Nat) :
    Except ParametersError (List Nat) :=
  let checksum := hexEncode (sha256 buffer)
  if CHECKSUM = checksum then Except.ok buffer
  else Except.error (ParametersError.ChecksumMismatch CHECKSUM checksum)

/-- Claim C10: `load_bytes` returns `Ok` with exactly the embedded bytes,
unmodified, iff the hex encoding of the SHA-256 digest of those bytes
equals the `CHECKSUM` constant; otherwise it returns a
`ChecksumMismatch` error carrying the expected and the computed
checksum. -/
theorem checksum_gated_load (sha256 : List Nat → List Nat) (CHECKSUM : String)
    (buffer : List Nat) :
    (load_bytes sha256 CHECKSUM buffer = Except.ok buffer ↔
      CHECKSUM = hexEncode (sha256 buffer)) ∧
    (∀ out, load_bytes sha256 CHECKSUM buffer = Except.ok out → out = buffer) ∧
    (CHECKSUM ≠ hexEncode (sha256 buffer) →
      load_bytes sha256 CHECKSUM buffer =
        Except.error (ParametersError.ChecksumMismatch CHECKSUM
          (hexEncode (sha256 buffer)))) := by
  refine ⟨⟨?_, ?_⟩, ?_, ?_⟩
  · intro h
    by_contra hne
    rw [load_bytes] at h
    simp only [if_neg hne] at h
    exact Except.noConfusion h
  · intro h
    rw [load_bytes]
    simp only [if_pos h]
  · intro out h
    by_cases hc : CHECKSUM = hexEncode (sha256 buffer)
    · rw [load_bytes] at h
      simp only [if_pos hc, Except.ok.injEq] at h
      exact h.symm
    · rw [load_bytes] at h
      simp only [if_neg hc] at h
      exact Except.noConfusion h
  · intro hne
    rw [load_bytes]
    simp only [if_neg hne]

theorem checksum_gated_load_witness :
    load_bytes (fun bs => bs) "00" [0] = Except.ok [0] :=
  (checksum_gated_load (fun bs => bs) "00" [0]).1.mpr (by decide)

end SnarkOS
